import Mathlib

/-!
# Verification of the recipe-project core

A shallow embedding, in Lean, of the algorithmic core of the repository:

* `web_scraper.py`: the JSON-LD recipe-node locator (`_is_recipe_node`,
  `_find_recipe_in_json`) and the field normalizer inside
  `scrape_recipe_data` (instruction flattening and nutrition filtering);
* `app.py`: the ingredient-quantity parser (`_parse_quantity_and_rest`),
  formatter (`_format_quantity`), scaler (`_scale_ingredient_line`) and the
  serving-factor computation inside `view_recipe`.

Modelling conventions:

* Decoded JSON is the inductive `JsonValue`; Python dicts are association
  lists in insertion order (JSON objects have unique keys), Python `None`
  is `JsonValue.null`.
* Python floats are modelled as rationals (`ℚ`).  Every numeric literal the
  quantity pipeline manipulates is built from decimal digit strings, and
  all the spec's example values are exactly representable, so rational
  arithmetic is the intended reading of the code's arithmetic.
* The character classes of the regexes (`\d`, `\s`) and of `str.strip` are
  modelled by their ASCII parts, the only ones exercised by the spec.
-/

namespace RecipeProject

/-- The universal representation of a decoded JSON-LD block: Python's
`None`/`bool`/numbers/`str`/`list`/`dict` as produced by `json.loads`.
Objects keep their fields in insertion order. -/
inductive JsonValue where
  | null : JsonValue
  | bool (b : Bool) : JsonValue
  | num (q : ℚ) : JsonValue
  | str (s : String) : JsonValue
  | arr (items : List JsonValue) : JsonValue
  | obj (fields : List (String × JsonValue)) : JsonValue

/-- Python `d.get(k)` on a dict: `some` of the stored value, `none` when the
key is absent. -/
def dictGet (kvs : List (String × JsonValue)) (k : String) : Option JsonValue :=
  (kvs.find? (fun kv => kv.1 == k)).map Prod.snd

/-- Python truthiness of a JSON value: `None`, `False`, `0`, `""`, `[]` and
`{}` are falsy, everything else is truthy. -/
def pyTruthy : JsonValue → Bool
  | .null => false
  | .bool b => b
  | .num q => decide (q ≠ 0)
  | .str s => s ≠ ""
  | .arr items => !items.isEmpty
  | .obj fields => !fields.isEmpty

/-- Python iteration `for x in v`: a list yields its elements, a string its
characters (as one-character strings), a dict its keys; numbers, booleans
and `None` are not iterable (`TypeError`, modelled as `none`). -/
def pyIter : JsonValue → Option (List JsonValue)
  | .arr items => some items
  | .str s => some (s.data.map fun c => .str (String.mk [c]))
  | .obj fields => some (fields.map fun kv => .str kv.1)
  | _ => none

/-- ASCII lowercasing of one character, the fragment of Python
`str.lower()` exercised here (schema.org type names are ASCII). -/
def asciiLower (c : Char) : Char :=
  if 65 ≤ c.toNat && c.toNat ≤ 90 then Char.ofNat (c.toNat + 32) else c

/-- Python `s.lower()`, restricted to its ASCII behaviour. -/
def pyLower (s : String) : String := String.mk (s.data.map asciiLower)

/-- The test `str(t).lower() == "recipe"` applied to one element of an
`@type` list (`web_scraper.py`, line 15).  Python first renders `t` with
`str`: a string renders as itself, while `None`/booleans render as
`"None"`/`"True"`/`"False"`, numbers as digit strings and containers as
bracketed reprs — none of which can lowercase to `"recipe"`, so only string
elements can pass the test. -/
def typeElemIsRecipe : JsonValue → Bool
  | .str s => pyLower s == "recipe"
  | _ => false

/-- Embeds `_is_recipe_node` (`web_scraper.py`, lines 8-18): a dict whose `@type`
is a list containing a string that lowercases to `"recipe"`, or a string
that lowercases to `"recipe"`. -/
def _is_recipe_node (node : JsonValue) : Bool :=
  match node with
  | .obj kvs =>
    match dictGet kvs "@type" with
    | some (.arr ts) => ts.any typeElemIsRecipe
    | some (.str s) => pyLower s == "recipe"
    | some _ => false
    | none => false
  | _ => false

/-- The container keys probed first by the locator (`web_scraper.py`,
line 40), in source order. -/
def containerKeys : List String := ["@graph", "graph", "mainEntity"]

/-- The values of the container keys that are present, in key order:
the loop `for key in ("@graph", "graph", "mainEntity"): if key in data`. -/
def containerVals (kvs : List (String × JsonValue)) : List JsonValue :=
  containerKeys.filterMap (dictGet kvs)

/-- Python `isinstance(value, (dict, list))`. -/
def isObjOrArr : JsonValue → Bool
  | .obj _ => true
  | .arr _ => true
  | _ => false

/-- The fallback loop's candidates (`web_scraper.py`, lines 47-48): every
dict/list value of the object, in key order. -/
def fallbackVals (kvs : List (String × JsonValue)) : List JsonValue :=
  (kvs.map Prod.snd).filter isObjOrArr

/-- One `for` loop of the locator: call `f` on each element and return the
first truthy result (`found = ...; if found: return found`).  A falsy
result (Python `None`, or a falsy value) moves on to the next element. -/
def firstFound (f : JsonValue → Option JsonValue) : List JsonValue → Option JsonValue
  | [] => none
  | v :: vs =>
    match f v with
    | some r => if pyTruthy r then some r else firstFound f vs
    | none => firstFound f vs

/-- Embeds `_find_recipe_in_json` (`web_scraper.py`, lines 21-59) with the fuel
argument first: at `max_depth <= 0` return `None`; on a dict, test the dict
itself, then the container keys in order, then every dict/list value in key
order; on a list, the elements in order.  Every descent decrements the
depth budget. -/
def findRecipeAux : Nat → JsonValue → Option JsonValue
  | 0, _ => none
  | n + 1, data =>
    match data with
    | .obj kvs =>
      if _is_recipe_node (.obj kvs) then some (.obj kvs)
      else
        match firstFound (findRecipeAux n) (containerVals kvs) with
        | some r => some r
        | none => firstFound (findRecipeAux n) (fallbackVals kvs)
    | .arr items => firstFound (findRecipeAux n) items
    | _ => none

/-- The source entry point `_find_recipe_in_json(data, max_depth=5)`: argument order and default
depth of the source. -/
def _find_recipe_in_json (data : JsonValue) (max_depth : Nat := 5) : Option JsonValue :=
  findRecipeAux max_depth data

/-- All recipe nodes reachable by the locator's traversal within the depth
budget, listed in the locator's priority order: the node itself first, then
matches under the container keys `@graph`, `graph`, `mainEntity` in that
order, then matches under the remaining dict/list fields in key order, then
array elements in order.  The locator returns the head of this list. -/
def matchesAux : Nat → JsonValue → List JsonValue
  | 0, _ => []
  | n + 1, data =>
    match data with
    | .obj kvs =>
      if _is_recipe_node (.obj kvs) then [.obj kvs]
      else (containerVals kvs).flatMap (matchesAux n) ++ (fallbackVals kvs).flatMap (matchesAux n)
    | .arr items => items.flatMap (matchesAux n)
    | _ => []

mutual

/-- Depth-unbounded version of the recipe test: does the document contain,
at any depth, an object passing `_is_recipe_node`?  Used to state what a
document "contains" independently of the locator's depth budget. -/
def containsRecipeNode : JsonValue → Bool
  | .obj kvs => _is_recipe_node (.obj kvs) || containsRecipeFields kvs
  | .arr items => containsRecipeItems items
  | _ => false

/-- Test `containsRecipeNode` over the elements of an array. -/
def containsRecipeItems : List JsonValue → Bool
  | [] => false
  | v :: vs => containsRecipeNode v || containsRecipeItems vs

/-- Test `containsRecipeNode` over the values of an object. -/
def containsRecipeFields : List (String × JsonValue) → Bool
  | [] => false
  | (_, v) :: rest => containsRecipeNode v || containsRecipeFields rest

end

/-! ## Instruction flattening (`scrape_recipe_data`, `web_scraper.py` lines 153-174) -/

/-- The ASCII part of Python's whitespace class (`\s`, `str.strip`):
space, tab, newline, carriage return, vertical tab, form feed. -/
def isPySpace (c : Char) : Bool :=
  c = ' ' || c = '\t' || c = '\n' || c = '\r' || c = '\x0b' || c = '\x0c'

/-- Python `s.strip()` on the character list of a string: drop whitespace
from both ends. -/
def pyStrip (cs : List Char) : List Char :=
  ((cs.dropWhile isPySpace).reverse.dropWhile isPySpace).reverse

/-- Python `a or b`: `a` when truthy, else `b`. -/
def pyOrJ (a b : JsonValue) : JsonValue := if pyTruthy a then a else b

/-- Python `text.strip()` followed by `if text: instructions.append(text)`:
the (zero or one) strings this appends. -/
def stripAppend (s : String) : List String :=
  if pyStrip s.data = [] then [] else [String.mk (pyStrip s.data)]

/-- Embeds `_add_instruction_text` (`web_scraper.py`, lines 155-163): for a dict,
take `get("text") or get("name") or ""`; for a string, the string itself;
anything else contributes nothing.  The chosen value is stripped and
appended when non-empty.  If the `or`-chain over the dict's fields produces
a truthy non-string (e.g. a number or a list), Python's `.strip()` raises
`AttributeError`, modelled as `none`; the falsy branch of the final
`(text or "")` always yields `""` because the chain ends in `""`. -/
def addInstructionText (stepObj : JsonValue) : Option (List String) :=
  match stepObj with
  | .obj kvs =>
    match pyOrJ ((dictGet kvs "text").getD .null)
        (pyOrJ ((dictGet kvs "name").getD .null) (.str "")) with
    | .str s => some (stripAppend s)
    | v => if pyTruthy v then none else some []
  | .str s => some (stripAppend s)
  | _ => some []

/-- Function `addInstructionText` folded over a list of step objects, in order;
`none` (an exception) aborts the whole extraction. -/
def addInstructionTexts : List JsonValue → Option (List String)
  | [] => some []
  | s :: rest =>
    match addInstructionText s, addInstructionTexts rest with
    | some a, some b => some (a ++ b)
    | _, _ => none

/-- One iteration of the instruction loop (`web_scraper.py`, lines
165-174): a dict tagged exactly `"HowToStep"` contributes its text, a dict
tagged exactly `"HowToSection"` contributes the texts of its
`itemListElement` entries (default `[]`), any other dict contributes
nothing; a non-dict goes straight to `_add_instruction_text`.  The `@type`
comparison is Python `==` against a string literal, so only an exact string
match selects a branch. -/
def instructionStep (step : JsonValue) : Option (List String) :=
  match step with
  | .obj kvs =>
    match dictGet kvs "@type" with
    | some (.str t) =>
      if t = "HowToStep" then addInstructionText (.obj kvs)
      else if t = "HowToSection" then
        match pyIter ((dictGet kvs "itemListElement").getD (.arr [])) with
        | some subs => addInstructionTexts subs
        | none => none
      else some []
    | _ => some []
  | _ => addInstructionText step

/-- The full instruction loop over the entries of `recipeInstructions`. -/
def extractInstructions : List JsonValue → Option (List String)
  | [] => some []
  | s :: rest =>
    match instructionStep s, extractInstructions rest with
    | some a, some b => some (a ++ b)
    | _, _ => none

/-- The `instructions` field of the normalized record for a recipe node:
`recipe_data.get("recipeInstructions", [])` iterated by the loop. -/
def instructionsOf (node : List (String × JsonValue)) : Option (List String) :=
  match pyIter ((dictGet node "recipeInstructions").getD (.arr [])) with
  | some steps => extractInstructions steps
  | none => none

/-! ## Nutrition filtering (`scrape_recipe_data`, `web_scraper.py` lines 176-197) -/

/-- The fixed allow-list of nutrition keys, in source order. -/
def nutritionFields : List String :=
  ["servingSize", "calories", "carbohydrateContent", "proteinContent",
   "fatContent", "saturatedFatContent", "cholesterolContent",
   "sodiumContent", "fiberContent", "sugarContent"]

/-- The loop `for key in fields: if raw_nutrition.get(key):
nutrition_info[key] = raw_nutrition[key]`: keep the allow-listed keys whose
stored value is truthy, in allow-list order. -/
def nutritionFiltered (raw : List (String × JsonValue)) : List (String × JsonValue) :=
  nutritionFields.filterMap fun k =>
    match dictGet raw k with
    | some v => if pyTruthy v then some (k, v) else none
    | none => none

/-- The filtered nutrition map of a node, `[]` when `node.nutrition` is
absent or not a dict. -/
def filteredMapOf (node : List (String × JsonValue)) : List (String × JsonValue) :=
  match dictGet node "nutrition" with
  | some (.obj raw) => nutritionFiltered raw
  | _ => []

/-- The `nutrition` field of the normalized record: `None` unless
`node.nutrition` is a dict whose filtered map is non-empty
(`if not nutrition_info: nutrition_info = None`). -/
def normalizeNutrition (node : List (String × JsonValue)) : Option (List (String × JsonValue)) :=
  match dictGet node "nutrition" with
  | some (.obj raw) =>
    let m := nutritionFiltered raw
    if m.isEmpty then none else some m
  | _ => none

/-! ## Quantity parser (`_parse_quantity_and_rest`, `app.py` lines 129-160)

The regex is `^\s*(\d+\s+\d+/\d+|\d+/\d+|\d*\.\d+|\d+)(.*)$`.  It is
embedded as a direct parser.  The embedding is exact because the regex has
no real non-determinism: the leading `\s*` cannot give characters back
(every alternative starts with a digit or `.`, never whitespace), inside
each alternative every starred/plussed class is followed by a disjoint
class so the greedy extent is forced, except for the final digit run, whose
extent does not affect whether `(.*)$` can match (shortening it only moves
digits, never newlines, into the suffix); alternatives are tried in source
order, and when `(.*)$` fails for one alternative the regex engine
backtracks into the next.  `(.*)$` itself (no DOTALL, no MULTILINE)
matches a suffix exactly when the suffix has no newline, or its only
newline is its final character — which `$` then excludes from group 2. -/

/-- ASCII decimal digit, the fragment of the regex class `\d` exercised
here. -/
def isPyDigit (c : Char) : Bool := '0' ≤ c && c ≤ '9'

/-- The numeric value of a digit string (what Python `float`/`int` see in
a run of decimal digits). -/
def digitsToNat (cs : List Char) : Nat :=
  cs.foldl (fun acc c => 10 * acc + (c.toNat - 48)) 0

/-- The four shapes of group 1 of the quantity regex, keeping the exact
matched characters: a mixed number `\d+\s+\d+/\d+` (with its whitespace
separator), a bare fraction `\d+/\d+`, a decimal `\d*\.\d+`, a bare
integer `\d+`. -/
inductive QtyTok where
  | mixed (w sp n d : List Char) : QtyTok
  | frac (n d : List Char) : QtyTok
  | dec (i f : List Char) : QtyTok
  | intTok (n : List Char) : QtyTok

/-- The characters of group 1 (`qty_str`). -/
def tokChars : QtyTok → List Char
  | .mixed w sp n d => w ++ sp ++ n ++ '/' :: d
  | .frac n d => n ++ '/' :: d
  | .dec i f => i ++ '.' :: f
  | .intTok n => n

/-- Well-formedness of a matched token: each component is drawn from its
regex character class, and the plussed components are non-empty. -/
def tokWF : QtyTok → Prop
  | .mixed w sp n d =>
    w ≠ [] ∧ w.all isPyDigit ∧ sp ≠ [] ∧ sp.all isPySpace ∧
    n ≠ [] ∧ n.all isPyDigit ∧ d ≠ [] ∧ d.all isPyDigit
  | .frac n d => n ≠ [] ∧ n.all isPyDigit ∧ d ≠ [] ∧ d.all isPyDigit
  | .dec i f => i.all isPyDigit ∧ f ≠ [] ∧ f.all isPyDigit
  | .intTok n => n ≠ [] ∧ n.all isPyDigit

/-- Alternative `\d+\s+\d+/\d+` at the start of `cs`. -/
def matchMixed (cs : List Char) : Option (QtyTok × List Char) :=
  let w := cs.takeWhile isPyDigit
  if w = [] then none else
  let r1 := cs.dropWhile isPyDigit
  let sp := r1.takeWhile isPySpace
  if sp = [] then none else
  let r2 := r1.dropWhile isPySpace
  let n := r2.takeWhile isPyDigit
  if n = [] then none else
  match r2.dropWhile isPyDigit with
  | c :: r4 =>
    if c = '/' then
      let d := r4.takeWhile isPyDigit
      if d = [] then none else some (.mixed w sp n d, r4.dropWhile isPyDigit)
    else none
  | [] => none

/-- Alternative `\d+/\d+` at the start of `cs`. -/
def matchFrac (cs : List Char) : Option (QtyTok × List Char) :=
  let n := cs.takeWhile isPyDigit
  if n = [] then none else
  match cs.dropWhile isPyDigit with
  | c :: r2 =>
    if c = '/' then
      let d := r2.takeWhile isPyDigit
      if d = [] then none else some (.frac n d, r2.dropWhile isPyDigit)
    else none
  | [] => none

/-- Alternative `\d*\.\d+` at the start of `cs`. -/
def matchDec (cs : List Char) : Option (QtyTok × List Char) :=
  let i := cs.takeWhile isPyDigit
  match cs.dropWhile isPyDigit with
  | c :: r2 =>
    if c = '.' then
      let f := r2.takeWhile isPyDigit
      if f = [] then none else some (.dec i f, r2.dropWhile isPyDigit)
    else none
  | [] => none

/-- Alternative `\d+` at the start of `cs`. -/
def matchInt (cs : List Char) : Option (QtyTok × List Char) :=
  let n := cs.takeWhile isPyDigit
  if n = [] then none else some (.intTok n, cs.dropWhile isPyDigit)

/-- The group `(.*)$` applied to the suffix after group 1 (no DOTALL/MULTILINE):
succeeds with the whole suffix when it has no newline, succeeds with the
suffix minus its final character when that character is its only newline,
fails otherwise. -/
def restCapture (cs : List Char) : Option (List Char) :=
  if cs.contains '\n' then
    if cs.dropLast.contains '\n' then none else some cs.dropLast
  else some cs

/-- One alternative followed by the `(.*)$` check. -/
def altWithRest (alt : Option (QtyTok × List Char)) : Option (QtyTok × List Char) :=
  match alt with
  | some (tok, rest) =>
    match restCapture rest with
    | some g2 => some (tok, g2)
    | none => none
  | none => none

/-- Embeds `re.match` of the full quantity pattern: skip leading whitespace, then
try the four alternatives in source order, each followed by the `(.*)$`
check; the result is `(group 1 as a token, group 2)`. -/
def pyMatch (cs : List Char) : Option (QtyTok × List Char) :=
  let body := cs.dropWhile isPySpace
  match altWithRest (matchMixed body) with
  | some res => some res
  | none =>
    match altWithRest (matchFrac body) with
    | some res => some res
    | none =>
      match altWithRest (matchDec body) with
      | some res => some res
      | none => altWithRest (matchInt body)

/-- The numeric conversion of `qty_str` (`app.py` lines 145-158), with
floats read as rationals.  A mixed token whose separator contains a space
takes the branch `' ' in qty_str and '/' in qty_str` and evaluates
`float(W) + float(N)/float(D)`; a mixed token whose separator is
whitespace without any space (e.g. a tab) falls into the plain-fraction
branch, where `float("W<ws>N")` raises `ValueError` (caught: `none`).  A
zero denominator raises `ZeroDivisionError` (caught: `none`). -/
def tokValue : QtyTok → Option ℚ
  | .mixed w sp n d =>
    if sp.contains ' ' then
      if digitsToNat d = 0 then none
      else some ((digitsToNat w : ℚ) + (digitsToNat n : ℚ) / (digitsToNat d : ℚ))
    else none
  | .frac n d =>
    if digitsToNat d = 0 then none
    else some ((digitsToNat n : ℚ) / (digitsToNat d : ℚ))
  | .dec i f => some ((digitsToNat i : ℚ) + (digitsToNat f : ℚ) / (10 : ℚ) ^ f.length)
  | .intTok n => some ((digitsToNat n : ℚ))

/-- Embeds `_parse_quantity_and_rest` (`app.py`, lines 129-160): no regex match,
or a failed numeric conversion, returns `(None, text)`; otherwise the
parsed value and group 2. -/
def _parse_quantity_and_rest (text : String) : Option ℚ × String :=
  match pyMatch text.data with
  | none => (none, text)
  | some (tok, g2) =>
    match tokValue tok with
    | none => (none, text)
    | some qty => (some qty, String.mk g2)

/-! ## Quantity formatter and scaler (`app.py` lines 163-199) -/

/-- Python `round()` on a rational: nearest integer, ties to the even
integer (banker's rounding). -/
def pyRound (q : ℚ) : Int :=
  let f : Int := ⌊q⌋
  let r : ℚ := q - (f : ℚ)
  if r < 1/2 then f
  else if 1/2 < r then f + 1
  else if f % 2 = 0 then f else f + 1

/-- The `fraction_map` dict (`app.py`, lines 173-181); the `0`/default case
is unreachable in `_format_quantity` (remainder `0` is rendered before the
lookup, and `n % 8` lies in `{0..7}`). -/
def fractionMap : Int → String
  | 1 => "1/8"
  | 2 => "1/4"
  | 3 => "3/8"
  | 4 => "1/2"
  | 5 => "5/8"
  | 6 => "3/4"
  | 7 => "7/8"
  | _ => ""

/-- The rendering of a count of eighths (`app.py`, lines 170-189):
`whole = n_eighths // 8`, `remainder = n_eighths % 8` (Python floor
division and modulo), then the four-way rendering. -/
def formatEighths (n_eighths : Int) : String :=
  let whole := Int.fdiv n_eighths 8
  let remainder := Int.fmod n_eighths 8
  if whole = 0 && remainder = 0 then "0"
  else if remainder = 0 then toString whole
  else if whole = 0 then fractionMap remainder
  else toString whole ++ " " ++ fractionMap remainder

/-- Embeds `_format_quantity` (`app.py`, lines 163-189): `None` renders as `""`,
otherwise `value * 8` is rounded to the nearest count of eighths and
rendered. -/
def _format_quantity (value : Option ℚ) : String :=
  match value with
  | none => ""
  | some v => formatEighths (pyRound (v * 8))

/-- Embeds `_scale_ingredient_line` (`app.py`, lines 192-199): no recognizable
leading quantity leaves the line unchanged; otherwise the scaled quantity
is formatted and concatenated with the untouched remainder. -/
def _scale_ingredient_line (text : String) (factor : ℚ) : String :=
  match _parse_quantity_and_rest text with
  | (none, _) => text
  | (some qty, rest) => _format_quantity (some (qty * factor)) ++ rest

/-! ## Serving factor (`view_recipe`, `app.py` lines 319-339) -/

/-- Embeds `base_servings = recipe.get('servings') or 4`: the stored count when
it is present and truthy (non-zero), else the fixed fallback 4. -/
def baseServings (servings : Option Int) : Int :=
  match servings with
  | some s => if s = 0 then 4 else s
  | none => 4

/-- The scaling factor computed by `view_recipe` (`app.py`, lines
326-335).  `requested` is the `servings` query parameter as an integer,
`none` when absent or unparseable (`int(...)` raising is caught and
replaced by the base count).  A non-positive target is discarded in favour
of the base count, and the factor is `target / base` (with a defensive
`1.0` if the base were falsy, which `or 4` rules out). -/
def view_recipe_factor (servings : Option Int) (requested : Option Int) : ℚ :=
  let base := baseServings servings
  let target0 := match requested with
    | some t => t
    | none => base
  let target := if target0 ≤ 0 then base else target0
  if base ≠ 0 then (target : ℚ) / (base : ℚ) else 1

/-! ## Lemmas about the locator -/

/-- A node passing `_is_recipe_node` is a non-empty dict, hence truthy —
so the source's `if found: return found` is equivalent to a `None` test on
the values the locator actually returns. -/
theorem recipe_node_truthy : ∀ v : JsonValue, _is_recipe_node v = true → pyTruthy v = true := by
  intro v h
  match v with
  | .obj [] => simp [_is_recipe_node, dictGet] at h
  | .obj (kv :: rest) => simp [pyTruthy, List.isEmpty]
  | .null | .bool _ | .num _ | .str _ | .arr _ => simp [_is_recipe_node] at h

/-- Every node in the priority-ordered match list passes the recipe type
test. -/
theorem mem_matchesAux : ∀ (n : Nat) (d x : JsonValue), x ∈ matchesAux n d →
    _is_recipe_node x = true := by
  intro n
  induction n with
  | zero => intro d x hx; simp [matchesAux] at hx
  | succ n ih =>
    intro d x hx
    match d with
    | .obj kvs =>
      simp only [matchesAux] at hx
      split at hx
      · next hrec =>
        rw [List.mem_singleton] at hx
        subst hx; exact hrec
      · rcases List.mem_append.1 hx with h | h <;>
          (rcases List.mem_flatMap.1 h with ⟨v, _, hxv⟩; exact ih v x hxv)
    | .arr items =>
      simp only [matchesAux] at hx
      rcases List.mem_flatMap.1 hx with ⟨v, _, hxv⟩
      exact ih v x hxv
    | .null | .bool _ | .num _ | .str _ => simp [matchesAux] at hx

/-- One locator loop returns the head of the concatenation of the
per-element match lists, provided `f` computes each head and every match is
truthy. -/
theorem firstFound_eq_head (f : JsonValue → Option JsonValue) (g : JsonValue → List JsonValue) :
    ∀ l : List JsonValue, (∀ v ∈ l, f v = (g v).head?) →
      (∀ v ∈ l, ∀ x ∈ g v, pyTruthy x = true) →
      firstFound f l = (l.flatMap g).head? := by
  intro l
  induction l with
  | nil => intro _ _; rfl
  | cons v vs ih =>
    intro hfg htr
    rw [List.flatMap_cons, List.head?_append, firstFound, hfg v (List.mem_cons_self v vs)]
    cases hgv : g v with
    | nil =>
      simp only [List.head?_nil, Option.none_or]
      exact ih (fun w hw => hfg w (List.mem_cons_of_mem v hw))
        (fun w hw => htr w (List.mem_cons_of_mem v hw))
    | cons x xs =>
      have hx : pyTruthy x = true :=
        htr v (List.mem_cons_self v vs) x (by rw [hgv]; exact List.mem_cons_self x xs)
      simp only [List.head?_cons, Option.or_some, hx, if_pos]

/-- The locator is the head of the priority-ordered match list. -/
theorem findRecipeAux_eq_head : ∀ (n : Nat) (d : JsonValue),
    findRecipeAux n d = (matchesAux n d).head? := by
  intro n
  induction n with
  | zero => intro d; rfl
  | succ n ih =>
    intro d
    have hloop : ∀ l : List JsonValue,
        firstFound (findRecipeAux n) l = (l.flatMap (matchesAux n)).head? := by
      intro l
      exact firstFound_eq_head _ _ l (fun v _ => ih v)
        (fun v _ x hx => recipe_node_truthy x (mem_matchesAux n v x hx))
    match d with
    | .obj kvs =>
      simp only [findRecipeAux, matchesAux]
      split
      · rfl
      · rw [hloop, hloop, List.head?_append]
        cases ((containerVals kvs).flatMap (matchesAux n)).head? <;> rfl
    | .arr items =>
      simp only [findRecipeAux, matchesAux]
      exact hloop items
    | .null | .bool _ | .num _ | .str _ => rfl

/-- A recipe node used by the C1 witness and counterexample. -/
def recipeNodeSample : JsonValue := .obj [("@type", .str "Recipe")]

/-- A document whose only recipe node sits below five levels of nesting,
one more than the depth budget allows the locator to reach. -/
def deepDoc : JsonValue :=
  .obj [("a", .obj [("a", .obj [("a", .obj [("a", .obj [("a", recipeNodeSample)])])])])]

/-- A recipe node wrapped in an array, within the depth budget. -/
def wrappedDoc : JsonValue := .arr [.null, recipeNodeSample]

/-- C1 (amended): for every JSON-LD document in which the locator's
depth-bounded priority traversal (budget 5) encounters at least one
recipe-typed Object, the locator returns some node, that node passes the
type test, and it is the first node of the traversal under the priority
ordering (direct type test first, then the container keys `@graph`,
`graph`, `mainEntity` in that order, then remaining Object/Array fields in
key order, then array elements in order), as listed by `matchesAux`. -/
theorem claim_C1 (d : JsonValue) (h : matchesAux 5 d ≠ []) :
    ∃ node, _find_recipe_in_json d = some node ∧ _is_recipe_node node = true ∧
      some node = (matchesAux 5 d).head? := by
  cases hm : matchesAux 5 d with
  | nil => exact absurd hm h
  | cons x xs =>
    refine ⟨x, ?_, ?_, ?_⟩
    · show findRecipeAux 5 d = some x
      rw [findRecipeAux_eq_head, hm]; rfl
    · exact mem_matchesAux 5 d x (by rw [hm]; exact List.mem_cons_self x xs)
    · rfl

/-- Witness for C1 at a concrete document: a recipe node inside an array
next to a `null`. -/
theorem claim_C1_witness :
    matchesAux 5 wrappedDoc ≠ [] ∧
    ∃ node, _find_recipe_in_json wrappedDoc = some node ∧ _is_recipe_node node = true ∧
      some node = (matchesAux 5 wrappedDoc).head? := by
  have hne : matchesAux 5 wrappedDoc ≠ [] := by
    rw [show matchesAux 5 wrappedDoc = [recipeNodeSample] from rfl]
    exact List.cons_ne_nil _ _
  exact ⟨hne, claim_C1 wrappedDoc hne⟩

/-- Counterexample to C1 as stated: `deepDoc` contains a recipe-typed
Object (at any depth), yet the locator returns `none`, because the node
lies one level beyond the depth budget of 5. -/
theorem claim_C1_counterexample :
    containsRecipeNode deepDoc = true ∧ _find_recipe_in_json deepDoc = none := by
  constructor
  · simp [deepDoc, recipeNodeSample, containsRecipeNode, containsRecipeFields,
      _is_recipe_node, dictGet, pyLower, asciiLower]
  · rfl

/-! ## Serving factor (C9) -/

/-- The fallback `or 4` makes the base serving count non-zero. -/
theorem baseServings_ne_zero (s : Option Int) : baseServings s ≠ 0 := by
  cases s with
  | none => decide
  | some v =>
    by_cases hv : v = 0
    · simp [baseServings, hv]
    · simp [baseServings, hv]

/-- C9: the scaling factor is `targetServings / baseServings`; a recipe
with no known serving count uses the fixed fallback 4 as base, and a
non-positive requested serving count is discarded in favour of the base
count, making the factor 1. -/
theorem claim_C9 :
    (∀ r : Option Int, view_recipe_factor none r = view_recipe_factor (some 4) r) ∧
    (∀ (s : Option Int) (t : Int), t ≤ 0 → view_recipe_factor s (some t) = 1) ∧
    (∀ (s : Option Int) (t : Int), 0 < t →
      view_recipe_factor s (some t) = (t : ℚ) / (baseServings s : ℚ)) := by
  refine ⟨fun r => rfl, ?_, ?_⟩
  · intro s t ht
    have hb := baseServings_ne_zero s
    have hbq : ((baseServings s : Int) : ℚ) ≠ 0 := Int.cast_ne_zero.mpr hb
    simp only [view_recipe_factor, if_pos ht, if_pos hb]
    exact div_self hbq
  · intro s t ht
    have hb := baseServings_ne_zero s
    simp only [view_recipe_factor, if_neg (not_le.mpr ht), if_pos hb]

/-- Witness for C9: 6-serving recipe with requested -2 gives factor 1;
4-serving recipe with requested 8 gives 8/4. -/
theorem claim_C9_witness :
    ((-2 : Int) ≤ 0 ∧ view_recipe_factor (some 6) (some (-2)) = 1) ∧
    (0 < (8 : Int) ∧ view_recipe_factor (some 4) (some 8) = (8 : ℚ) / (baseServings (some 4) : ℚ)) :=
  ⟨⟨by decide, claim_C9.2.1 (some 6) (-2) (by decide)⟩,
   ⟨by decide, claim_C9.2.2 (some 4) 8 (by decide)⟩⟩

/-! ## Untagged instruction entries are dropped (C10) -/

/-- C10: a dict entry of `recipeInstructions` whose `@type` is not exactly
the string `"HowToStep"` and not exactly the string `"HowToSection"` (the
comparison is case-sensitive `==` against a string, so a differently-cased
string or a list of type strings does not match, unlike the recipe-node
type test) contributes nothing to the instruction list, whatever text it
carries. -/
theorem claim_C10 (kvs : List (String × JsonValue))
    (h1 : dictGet kvs "@type" ≠ some (.str "HowToStep"))
    (h2 : dictGet kvs "@type" ≠ some (.str "HowToSection")) :
    instructionStep (.obj kvs) = some [] := by
  simp only [instructionStep]
  cases hty : dictGet kvs "@type" with
  | none => rfl
  | some v =>
    cases v with
    | str t =>
      have ht1 : ¬ t = "HowToStep" := by rintro rfl; exact h1 hty
      have ht2 : ¬ t = "HowToSection" := by rintro rfl; exact h2 hty
      simp [ht1, ht2]
    | null => rfl
    | bool b => rfl
    | num q => rfl
    | arr items => rfl
    | obj fields => rfl

/-- Witness for C10: an entry typed `"howtostep"` (wrong case) with
non-empty text is dropped. -/
theorem claim_C10_witness :
    dictGet [("@type", JsonValue.str "howtostep"), ("text", JsonValue.str "Mix")] "@type" ≠
      some (JsonValue.str "HowToStep") ∧
    dictGet [("@type", JsonValue.str "howtostep"), ("text", JsonValue.str "Mix")] "@type" ≠
      some (JsonValue.str "HowToSection") ∧
    instructionStep (.obj [("@type", JsonValue.str "howtostep"), ("text", JsonValue.str "Mix")]) =
      some [] := by
  have e : dictGet [("@type", JsonValue.str "howtostep"), ("text", JsonValue.str "Mix")] "@type" =
      some (JsonValue.str "howtostep") := rfl
  have h1 : dictGet [("@type", JsonValue.str "howtostep"), ("text", JsonValue.str "Mix")] "@type" ≠
      some (JsonValue.str "HowToStep") := by
    rw [e]; intro h; simp at h
  have h2 : dictGet [("@type", JsonValue.str "howtostep"), ("text", JsonValue.str "Mix")] "@type" ≠
      some (JsonValue.str "HowToSection") := by
    rw [e]; intro h; simp at h
  exact ⟨h1, h2, claim_C10 _ h1 h2⟩

/-! ## Nutrition allow-list (C8) -/

/-- A successful dict lookup comes from an entry of the dict. -/
theorem dictGet_mem (kvs : List (String × JsonValue)) (k : String) (v : JsonValue)
    (h : dictGet kvs k = some v) : ∃ p ∈ kvs, p.1 = k ∧ p.2 = v := by
  unfold dictGet at h
  cases hf : kvs.find? (fun kv => kv.1 == k) with
  | none => rw [hf] at h; cases h
  | some p =>
    rw [hf] at h
    have hmem := List.mem_of_find?_eq_some hf
    have hp := List.find?_some hf
    refine ⟨p, hmem, by simpa using hp, ?_⟩
    simpa using h

/-- C8: the normalized nutrition map only holds allow-listed keys with
truthy values; it is `None` exactly when the filtered map is empty; in
particular a nutrition dict with only unrecognized keys normalizes to
`None`. -/
theorem claim_C8 (node : List (String × JsonValue)) :
    (∀ m, normalizeNutrition node = some m →
      ∀ k v, (k, v) ∈ m → k ∈ nutritionFields ∧ pyTruthy v = true) ∧
    (normalizeNutrition node = none ↔ filteredMapOf node = []) ∧
    (∀ raw, dictGet node "nutrition" = some (.obj raw) →
      (∀ p ∈ raw, p.1 ∉ nutritionFields) → normalizeNutrition node = none) := by
  refine ⟨?_, ?_, ?_⟩
  · intro m hm k v hkv
    simp only [normalizeNutrition] at hm
    split at hm
    · next raw hraw =>
      split at hm
      · exact absurd hm (by simp)
      · obtain rfl : nutritionFiltered raw = m := Option.some.inj hm
        rcases List.mem_filterMap.1 hkv with ⟨k', hk', heq⟩
        cases hget : dictGet raw k' with
        | none => rw [hget] at heq; cases heq
        | some w =>
          rw [hget] at heq
          split at heq
          · next r hr =>
            split at heq
            · next htr =>
              have hkw := Option.some.inj heq
              have hk : k' = k := congrArg Prod.fst hkw
              have hv : r = v := congrArg Prod.snd hkw
              subst hk
              subst hv
              exact ⟨hk', htr⟩
            · cases heq
          · cases heq
    · next => cases hm
  · unfold normalizeNutrition filteredMapOf
    cases hnut : dictGet node "nutrition" with
    | none => simp
    | some v =>
      cases v with
      | obj raw =>
        by_cases hemp : nutritionFiltered raw = []
        · simp [hemp]
        · simp [hemp, List.isEmpty_iff]
      | null => simp
      | bool b => simp
      | num q => simp
      | str s => simp
      | arr items => simp
  · intro raw hraw hkeys
    have hfil : nutritionFiltered raw = [] := by
      unfold nutritionFiltered
      rw [List.filterMap_eq_nil_iff]
      intro k hk
      cases hget : dictGet raw k with
      | none => rfl
      | some v =>
        rcases dictGet_mem raw k v hget with ⟨p, hp, hpk, _⟩
        have hnot := hkeys p hp
        rw [hpk] at hnot
        exact absurd hk hnot
    unfold normalizeNutrition
    rw [hraw]
    simp [hfil]

/-- Witness for C8: a nutrition dict holding only the unrecognized key
`"foo"` normalizes to `None`. -/
theorem claim_C8_witness :
    dictGet [("nutrition", JsonValue.obj [("foo", JsonValue.str "x")])] "nutrition" =
      some (JsonValue.obj [("foo", JsonValue.str "x")]) ∧
    (∀ p ∈ [("foo", JsonValue.str "x")], p.1 ∉ nutritionFields) ∧
    normalizeNutrition [("nutrition", JsonValue.obj [("foo", JsonValue.str "x")])] = none := by
  have h1 : dictGet [("nutrition", JsonValue.obj [("foo", JsonValue.str "x")])] "nutrition" =
      some (JsonValue.obj [("foo", JsonValue.str "x")]) := rfl
  have h2 : ∀ p ∈ [("foo", JsonValue.str "x")], p.1 ∉ nutritionFields := by
    intro p hp
    rw [List.mem_singleton] at hp
    subst hp
    decide
  exact ⟨h1, h2, (claim_C8 _).2.2 _ h1 h2⟩

/-! ## Scaler pass-through and delegation (C5, C6) -/

/-- The condition "the matched fraction's denominator is zero": the `\d+/\d+` part of the
matched quantity token has all-zero denominator digits. -/
def tokDenZero : QtyTok → Prop
  | .mixed _ _ _ d => digitsToNat d = 0
  | .frac _ d => digitsToNat d = 0
  | .dec _ _ => False
  | .intTok _ => False

/-- A zero denominator makes the numeric conversion fail
(`ZeroDivisionError`, caught). -/
theorem tokValue_denZero (tok : QtyTok) (h : tokDenZero tok) : tokValue tok = none := by
  cases tok with
  | mixed w sp n d =>
    have hd : digitsToNat d = 0 := h
    cases hc : sp.contains ' ' <;> simp [tokValue, hc, hd]
  | frac n d =>
    have hd : digitsToNat d = 0 := h
    simp [tokValue, hd]
  | dec i f => exact h.elim
  | intTok n => exact h.elim

/-- C6: when the quantity regex does not match, or the matched fraction has
a zero denominator, the parser returns `(None, original line)`; and
whenever no quantity is produced the line comes back unchanged.  The
embedded parser is a total function: the `ValueError`/`ZeroDivisionError`
paths of the source are the `none` results, so no error escapes. -/
theorem claim_C6 (text : String) :
    (pyMatch text.data = none → _parse_quantity_and_rest text = (none, text)) ∧
    (∀ tok g2, pyMatch text.data = some (tok, g2) → tokDenZero tok →
      _parse_quantity_and_rest text = (none, text)) ∧
    ((_parse_quantity_and_rest text).1 = none → (_parse_quantity_and_rest text).2 = text) := by
  refine ⟨?_, ?_, ?_⟩
  · intro h
    simp only [_parse_quantity_and_rest, h]
  · intro tok g2 h hden
    simp only [_parse_quantity_and_rest, h, tokValue_denZero tok hden]
  · intro h
    cases hp : pyMatch text.data with
    | none => simp only [_parse_quantity_and_rest, hp]
    | some res =>
      obtain ⟨tok, g2⟩ := res
      cases hv : tokValue tok with
      | none => simp only [_parse_quantity_and_rest, hp, hv]
      | some q =>
        rw [show _parse_quantity_and_rest text = (some q, String.mk g2) by
          simp only [_parse_quantity_and_rest, hp, hv]] at h
        exact absurd h (by simp)

/-- Witness for C6: `"1/0 cups"` matches the fraction alternative with a
zero denominator and passes through unchanged. -/
theorem claim_C6_witness :
    pyMatch "1/0 cups".data = some (.frac ['1'] ['0'], " cups".data) ∧
    tokDenZero (.frac ['1'] ['0']) ∧
    _parse_quantity_and_rest "1/0 cups" = (none, "1/0 cups") :=
  ⟨rfl, rfl, (claim_C6 "1/0 cups").2.1 _ _ rfl rfl⟩

/-- C5: scaling delegates to the parser — an unrecognized line passes
through unchanged, a recognized quantity is multiplied by the factor,
re-formatted and concatenated with the untouched remainder; in particular
`"1 1/2 cups flour"` doubled is `"3 cups flour"`. -/
theorem claim_C5 :
    _scale_ingredient_line "1 1/2 cups flour" 2 = "3 cups flour" ∧
    (∀ (line : String) (factor : ℚ), (_parse_quantity_and_rest line).1 = none →
      _scale_ingredient_line line factor = line) ∧
    (∀ (line : String) (factor q : ℚ) (rest : String),
      _parse_quantity_and_rest line = (some q, rest) →
      _scale_ingredient_line line factor = _format_quantity (some (q * factor)) ++ rest) := by
  refine ⟨?_, ?_, ?_⟩
  · have h : _scale_ingredient_line "1 1/2 cups flour" 2 =
        _format_quantity (some (((digitsToNat ['1'] : ℚ) +
          (digitsToNat ['1'] : ℚ) / (digitsToNat ['2'] : ℚ)) * 2)) ++ " cups flour" := rfl
    rw [h, show ((digitsToNat ['1'] : ℚ) +
        (digitsToNat ['1'] : ℚ) / (digitsToNat ['2'] : ℚ)) * 2 = 3 by
      norm_num [show digitsToNat ['1'] = 1 from rfl, show digitsToNat ['2'] = 2 from rfl]]
    have hf : _format_quantity (some 3) = "3" := by
      show formatEighths (pyRound ((3:ℚ) * 8)) = "3"
      rw [show pyRound ((3:ℚ) * 8) = 24 by
        unfold pyRound
        rw [show ⌊(3:ℚ) * 8⌋ = 24 by norm_num [Int.floor_eq_iff]]
        norm_num]
      rfl
    rw [hf]
    rfl
  · intro line factor h
    cases hp : _parse_quantity_and_rest line with
    | mk fst snd =>
      cases fst with
      | none => simp only [_scale_ingredient_line, hp]
      | some q =>
        rw [hp] at h
        exact absurd h (by simp)
  · intro line factor q rest h
    simp only [_scale_ingredient_line, h]

/-- Witness for C5: the pass-through branch at `"a pinch of salt"` and the
scaling branch at `"1 cup"`. -/
theorem claim_C5_witness :
    ((_parse_quantity_and_rest "a pinch of salt").1 = none ∧
      _scale_ingredient_line "a pinch of salt" 2 = "a pinch of salt") ∧
    (_parse_quantity_and_rest "1 cup" = (some (digitsToNat ['1'] : ℚ), " cup") ∧
      _scale_ingredient_line "1 cup" 2 =
        _format_quantity (some ((digitsToNat ['1'] : ℚ) * 2)) ++ " cup") :=
  ⟨⟨rfl, claim_C5.2.1 "a pinch of salt" 2 rfl⟩,
   ⟨rfl, claim_C5.2.2 "1 cup" 2 _ " cup" rfl⟩⟩

/-! ## Quantity formatter (C4) -/

/-- Function `pyRound` lands on a nearest integer: it never strays more than a half
from its argument. -/
theorem pyRound_nearest (q : ℚ) : |q - (pyRound q : ℚ)| ≤ 1/2 := by
  have h1 : (⌊q⌋ : ℚ) ≤ q := Int.floor_le q
  have h2 : q < ⌊q⌋ + 1 := Int.lt_floor_add_one q
  by_cases hlt : q - (⌊q⌋ : ℚ) < 1/2
  · rw [show pyRound q = ⌊q⌋ by simp only [pyRound]; rw [if_pos hlt]]
    rw [abs_le]
    constructor <;> linarith
  · by_cases hgt : (1 : ℚ)/2 < q - (⌊q⌋ : ℚ)
    · rw [show pyRound q = ⌊q⌋ + 1 by simp only [pyRound]; rw [if_neg hlt, if_pos hgt]]
      rw [abs_le]
      push_cast
      constructor <;> linarith
    · have heq : q - (⌊q⌋ : ℚ) = 1/2 := le_antisymm (not_lt.1 hgt) (not_lt.1 hlt)
      by_cases hev : ⌊q⌋ % 2 = 0
      · rw [show pyRound q = ⌊q⌋ by simp only [pyRound]; rw [if_neg hlt, if_neg hgt, if_pos hev]]
        rw [abs_le]
        constructor <;> linarith
      · rw [show pyRound q = ⌊q⌋ + 1 by
          simp only [pyRound]; rw [if_neg hlt, if_neg hgt, if_neg hev]]
        rw [abs_le]
        push_cast
        constructor <;> linarith

/-- Python `% 8` keeps the remainder in `{0..7}`. -/
theorem fmod8_bounds (n : Int) : 0 ≤ Int.fmod n 8 ∧ Int.fmod n 8 < 8 := by
  rw [Int.fmod_eq_emod n (by decide : (0:Int) ≤ 8)]
  exact ⟨Int.emod_nonneg n (by decide), Int.emod_lt_of_pos n (by decide)⟩

/-- The four-way rendering of `formatEighths`, regrouped by remainder
first, as the spec words it. -/
theorem formatEighths_cases (n : Int) :
    formatEighths n =
      (if Int.fmod n 8 = 0 then
         (if Int.fdiv n 8 = 0 then "0" else toString (Int.fdiv n 8))
       else if Int.fdiv n 8 = 0 then fractionMap (Int.fmod n 8)
       else toString (Int.fdiv n 8) ++ " " ++ fractionMap (Int.fmod n 8)) := by
  by_cases hw : Int.fdiv n 8 = 0 <;> by_cases hr : Int.fmod n 8 = 0 <;>
    simp [formatEighths, hw, hr]

/-- C4: the formatter's examples, and in general (for non-negative values)
`value * 8` is rounded to a nearest integer count of eighths, the count is
decomposed into a whole part and a remainder in `{0..7}`, remainder 0
renders as the whole number alone (`"0"` when the whole part is also 0),
a non-zero remainder maps through the fixed eighths table, and a non-zero
whole with a non-zero remainder renders as `"<whole> <fraction>"`. -/
theorem claim_C4 :
    _format_quantity (some 0) = "0" ∧
    _format_quantity (some (3/2)) = "1 1/2" ∧
    _format_quantity (some (33/100)) = "3/8" ∧
    (∀ v : ℚ, 0 ≤ v →
      |v * 8 - (pyRound (v * 8) : ℚ)| ≤ 1/2 ∧
      0 ≤ Int.fmod (pyRound (v * 8)) 8 ∧ Int.fmod (pyRound (v * 8)) 8 < 8 ∧
      _format_quantity (some v) =
        (if Int.fmod (pyRound (v * 8)) 8 = 0 then
           (if Int.fdiv (pyRound (v * 8)) 8 = 0 then "0"
            else toString (Int.fdiv (pyRound (v * 8)) 8))
         else if Int.fdiv (pyRound (v * 8)) 8 = 0 then
           fractionMap (Int.fmod (pyRound (v * 8)) 8)
         else toString (Int.fdiv (pyRound (v * 8)) 8) ++ " " ++
           fractionMap (Int.fmod (pyRound (v * 8)) 8))) := by
  refine ⟨?_, ?_, ?_, ?_⟩
  · show formatEighths (pyRound ((0:ℚ) * 8)) = "0"
    rw [show pyRound ((0:ℚ) * 8) = 0 by
      simp only [pyRound]
      rw [show ⌊(0:ℚ) * 8⌋ = 0 by norm_num]
      norm_num]
    rfl
  · show formatEighths (pyRound ((3:ℚ)/2 * 8)) = "1 1/2"
    rw [show pyRound ((3:ℚ)/2 * 8) = 12 by
      simp only [pyRound]
      rw [show ⌊(3:ℚ)/2 * 8⌋ = 12 by norm_num [Int.floor_eq_iff]]
      norm_num]
    rfl
  · show formatEighths (pyRound ((33:ℚ)/100 * 8)) = "3/8"
    rw [show pyRound ((33:ℚ)/100 * 8) = 3 by
      simp only [pyRound]
      rw [show ⌊(33:ℚ)/100 * 8⌋ = 2 by norm_num [Int.floor_eq_iff]]
      norm_num]
    rfl
  · intro v _
    refine ⟨pyRound_nearest (v * 8), (fmod8_bounds _).1, (fmod8_bounds _).2, ?_⟩
    show formatEighths (pyRound (v * 8)) = _
    exact formatEighths_cases _

/-- Witness for C4's quantified part at `v = 33/100`. -/
theorem claim_C4_witness :
    (0:ℚ) ≤ 33/100 ∧ |(33:ℚ)/100 * 8 - (pyRound ((33:ℚ)/100 * 8) : ℚ)| ≤ 1/2 :=
  ⟨by norm_num, (claim_C4.2.2.2 (33/100) (by norm_num)).1⟩

/-! ## Instruction flattening scenario (C7) -/

/-- Python `a or b` keeps a truthy `a`. -/
theorem pyOrJ_truthy (a b : JsonValue) (h : pyTruthy a = true) : pyOrJ a b = a := by
  simp [pyOrJ, h]

/-- A step object whose `text` field is a non-empty string contributes its
stripped text. -/
theorem addInstructionText_obj (kvs : List (String × JsonValue)) (t : String)
    (hget : dictGet kvs "text" = some (.str t)) (ht : t ≠ "") :
    addInstructionText (.obj kvs) = some (stripAppend t) := by
  have htr : pyTruthy (JsonValue.str t) = true := by simp [pyTruthy, ht]
  simp only [addInstructionText, hget, Option.getD_some, pyOrJ_truthy _ _ htr]

/-- Extraction distributes over concatenation of the step list (order
preservation). -/
theorem extractInstructions_append (l2 : List JsonValue) (b : List String)
    (h2 : extractInstructions l2 = some b) :
    ∀ (l1 : List JsonValue) (a : List String), extractInstructions l1 = some a →
      extractInstructions (l1 ++ l2) = some (a ++ b) := by
  intro l1
  induction l1 with
  | nil =>
    intro a h1
    obtain rfl : [] = a := Option.some.inj h1
    simpa using h2
  | cons s rest ih =>
    intro a h1
    simp only [extractInstructions] at h1
    cases hs : instructionStep s with
    | none => rw [hs] at h1; cases h1
    | some ts =>
      rw [hs] at h1
      cases hr : extractInstructions rest with
      | none => rw [hr] at h1; cases h1
      | some more =>
        rw [hr] at h1
        obtain rfl : ts ++ more = a := Option.some.inj h1
        rw [List.cons_append]
        simp only [extractInstructions, hs, ih more hr]
        rw [List.append_assoc]

/-- C7: a `recipeInstructions` list holding one `HowToSection` wrapping two
`HowToStep` entries followed by one bare string, all with non-blank text,
normalizes to exactly the three stripped texts in source order; a bare
string entry is stripped and appended when non-empty; extraction preserves
concatenation order. -/
theorem claim_C7 (t1 t2 t3 : String)
    (h1 : pyStrip t1.data ≠ []) (h2 : pyStrip t2.data ≠ []) (h3 : pyStrip t3.data ≠ []) :
    instructionsOf [("recipeInstructions", .arr
      [.obj [("@type", .str "HowToSection"), ("itemListElement", .arr
        [.obj [("@type", .str "HowToStep"), ("text", .str t1)],
         .obj [("@type", .str "HowToStep"), ("text", .str t2)]])],
       .str t3])] =
      some [String.mk (pyStrip t1.data), String.mk (pyStrip t2.data),
            String.mk (pyStrip t3.data)] ∧
    (∀ s : String, instructionStep (.str s) = some (stripAppend s)) ∧
    (∀ (l1 l2 : List JsonValue) (a b : List String),
      extractInstructions l1 = some a → extractInstructions l2 = some b →
      extractInstructions (l1 ++ l2) = some (a ++ b)) := by
  refine ⟨?_, fun s => rfl, fun l1 l2 a b ha hb => extractInstructions_append l2 b hb l1 a ha⟩
  have ht1 : t1 ≠ "" := fun he => h1 (by rw [he]; rfl)
  have ht2 : t2 ≠ "" := fun he => h2 (by rw [he]; rfl)
  have ht3 : t3 ≠ "" := fun he => h3 (by rw [he]; rfl)
  have e1 : addInstructionText (.obj [("@type", JsonValue.str "HowToStep"),
      ("text", JsonValue.str t1)]) = some (stripAppend t1) :=
    addInstructionText_obj _ t1 rfl ht1
  have e2 : addInstructionText (.obj [("@type", JsonValue.str "HowToStep"),
      ("text", JsonValue.str t2)]) = some (stripAppend t2) :=
    addInstructionText_obj _ t2 rfl ht2
  have esec : instructionStep (JsonValue.obj [("@type", JsonValue.str "HowToSection"),
      ("itemListElement", JsonValue.arr
        [JsonValue.obj [("@type", JsonValue.str "HowToStep"), ("text", JsonValue.str t1)],
         JsonValue.obj [("@type", JsonValue.str "HowToStep"), ("text", JsonValue.str t2)]])]) =
      addInstructionTexts
        [JsonValue.obj [("@type", JsonValue.str "HowToStep"), ("text", JsonValue.str t1)],
         JsonValue.obj [("@type", JsonValue.str "HowToStep"), ("text", JsonValue.str t2)]] := rfl
  have e3 : instructionStep (JsonValue.str t3) = some (stripAppend t3) := rfl
  show extractInstructions
      [JsonValue.obj [("@type", JsonValue.str "HowToSection"),
        ("itemListElement", JsonValue.arr
          [JsonValue.obj [("@type", JsonValue.str "HowToStep"), ("text", JsonValue.str t1)],
           JsonValue.obj [("@type", JsonValue.str "HowToStep"), ("text", JsonValue.str t2)]])],
       JsonValue.str t3] = _
  simp only [extractInstructions, addInstructionTexts, esec, e1, e2, e3]
  rw [show stripAppend t1 = [String.mk (pyStrip t1.data)] from by
        unfold stripAppend; rw [if_neg h1],
      show stripAppend t2 = [String.mk (pyStrip t2.data)] from by
        unfold stripAppend; rw [if_neg h2],
      show stripAppend t3 = [String.mk (pyStrip t3.data)] from by
        unfold stripAppend; rw [if_neg h3]]
  simp

/-- Witness for C7 at concrete texts. -/
theorem claim_C7_witness :
    pyStrip " Mix well. ".data ≠ [] ∧
    instructionsOf [("recipeInstructions", .arr
      [.obj [("@type", .str "HowToSection"), ("itemListElement", .arr
        [.obj [("@type", .str "HowToStep"), ("text", .str " Mix well. ")],
         .obj [("@type", .str "HowToStep"), ("text", .str "Bake.")]])],
       .str "Serve."])] =
      some [String.mk (pyStrip " Mix well. ".data), String.mk (pyStrip "Bake.".data),
            String.mk (pyStrip "Serve.".data)] :=
  ⟨by decide,
   (claim_C7 " Mix well. " "Bake." "Serve." (by decide) (by decide) (by decide)).1⟩

/-! ## Round trip at factor 1 (C3) -/

/-- Rendering of the quantity 1. -/
theorem format_one_eval : _format_quantity (some (1:ℚ)) = "1" := by
  show formatEighths (pyRound ((1:ℚ) * 8)) = "1"
  rw [show pyRound ((1:ℚ) * 8) = 8 by
    simp only [pyRound]
    rw [show ⌊(1:ℚ) * 8⌋ = 8 by norm_num [Int.floor_eq_iff]]
    norm_num]
  rfl

/-- Counterexample to C3 as stated: `" 1 cup"` has a recognizable leading
quantity whose formatted rendering `"1"` equals the original quantity
token, yet scaling by 1 strips the leading whitespace the regex consumed,
so the line does not round-trip. -/
theorem claim_C3_counterexample :
    pyMatch " 1 cup".data = some (.intTok ['1'], " cup".data) ∧
    _parse_quantity_and_rest " 1 cup" = (some (digitsToNat ['1'] : ℚ), " cup") ∧
    _format_quantity (some (digitsToNat ['1'] : ℚ)) = String.mk (tokChars (.intTok ['1'])) ∧
    _scale_ingredient_line " 1 cup" 1 ≠ " 1 cup" := by
  have hcast : ((digitsToNat ['1'] : ℚ)) = 1 := by
    norm_num [show digitsToNat ['1'] = 1 from rfl]
  refine ⟨rfl, rfl, ?_, ?_⟩
  · rw [hcast, format_one_eval]
    rfl
  · have hs : _scale_ingredient_line " 1 cup" 1 =
        _format_quantity (some ((digitsToNat ['1'] : ℚ) * 1)) ++ " cup" := rfl
    rw [hs, show ((digitsToNat ['1'] : ℚ) * 1) = 1 by rw [hcast, mul_one], format_one_eval]
    decide

/-- C3 (amended): scaling by 1 is the identity on every line that consists
exactly of its recognized quantity token followed by the returned remainder
— i.e. the regex strips no leading whitespace and drops no trailing newline
— and whose formatted nearest-eighth rendering equals the original quantity
token. -/
theorem claim_C3 (line : String) (tok : QtyTok) (g2 : List Char) (q : ℚ)
    (hm : pyMatch line.data = some (tok, g2))
    (hv : tokValue tok = some q)
    (hf : _format_quantity (some q) = String.mk (tokChars tok))
    (hl : line.data = tokChars tok ++ g2) :
    _scale_ingredient_line line 1 = line := by
  have hp : _parse_quantity_and_rest line = (some q, String.mk g2) := by
    simp only [_parse_quantity_and_rest, hm, hv]
  simp only [_scale_ingredient_line, hp, mul_one, hf]
  have happ : String.mk (tokChars tok) ++ String.mk g2 = String.mk (tokChars tok ++ g2) := rfl
  rw [happ, ← hl]

/-- Witness for C3 (amended) at `"1 cup"`. -/
theorem claim_C3_witness :
    pyMatch "1 cup".data = some (.intTok ['1'], " cup".data) ∧
    tokValue (.intTok ['1']) = some 1 ∧
    _format_quantity (some (1:ℚ)) = String.mk (tokChars (.intTok ['1'])) ∧
    "1 cup".data = tokChars (.intTok ['1']) ++ " cup".data ∧
    _scale_ingredient_line "1 cup" 1 = "1 cup" := by
  have hv : tokValue (.intTok ['1']) = some 1 := by
    show some ((digitsToNat ['1'] : ℚ)) = some 1
    norm_num [show digitsToNat ['1'] = 1 from rfl]
  have hf : _format_quantity (some (1:ℚ)) = String.mk (tokChars (.intTok ['1'])) := by
    rw [format_one_eval]
    rfl
  exact ⟨rfl, hv, hf, rfl, claim_C3 "1 cup" (.intTok ['1']) " cup".data 1 rfl hv hf rfl⟩

/-! ## Parser anchoring and value correspondence (C2) -/

/-- Characters kept by `takeWhile` satisfy the class predicate. -/
theorem all_takeWhile (p : Char → Bool) : ∀ l : List Char, (l.takeWhile p).all p = true := by
  intro l
  induction l with
  | nil => rfl
  | cons c cs ih =>
    rw [List.takeWhile_cons]
    cases hc : p c with
    | false => rfl
    | true => simp [List.all_cons, hc, ih]

/-- A successful mixed-number match consumed exactly the token's
characters, and the token is well-formed. -/
theorem matchMixed_sound (cs : List Char) (tok : QtyTok) (r : List Char)
    (h : matchMixed cs = some (tok, r)) : cs = tokChars tok ++ r ∧ tokWF tok := by
  simp only [matchMixed] at h
  split at h
  · cases h
  · next hw =>
    split at h
    · cases h
    · next hsp =>
      split at h
      · cases h
      · next hn =>
        split at h
        · next c r4 heq =>
          split at h
          · next hc =>
            split at h
            · cases h
            · next hd =>
              subst hc
              have hpair := Option.some.inj h
              rw [Prod.mk.injEq] at hpair
              obtain ⟨htok, hr⟩ := hpair
              subst htok
              subst hr
              refine ⟨?_, hw, all_takeWhile _ _, hsp, all_takeWhile _ _, hn,
                all_takeWhile _ _, hd, all_takeWhile _ _⟩
              conv_lhs => rw [← List.takeWhile_append_dropWhile isPyDigit cs,
                ← List.takeWhile_append_dropWhile isPySpace (cs.dropWhile isPyDigit),
                ← List.takeWhile_append_dropWhile isPyDigit
                  ((cs.dropWhile isPyDigit).dropWhile isPySpace),
                heq,
                ← List.takeWhile_append_dropWhile isPyDigit r4]
              simp [tokChars, List.append_assoc]
          · cases h
        · cases h

/-- A successful bare-fraction match consumed exactly the token's
characters, and the token is well-formed. -/
theorem matchFrac_sound (cs : List Char) (tok : QtyTok) (r : List Char)
    (h : matchFrac cs = some (tok, r)) : cs = tokChars tok ++ r ∧ tokWF tok := by
  simp only [matchFrac] at h
  split at h
  · cases h
  · next hn =>
    split at h
    · next c r2 heq =>
      split at h
      · next hc =>
        split at h
        · cases h
        · next hd =>
          subst hc
          have hpair := Option.some.inj h
          rw [Prod.mk.injEq] at hpair
          obtain ⟨htok, hr⟩ := hpair
          subst htok
          subst hr
          refine ⟨?_, hn, all_takeWhile _ _, hd, all_takeWhile _ _⟩
          conv_lhs => rw [← List.takeWhile_append_dropWhile isPyDigit cs, heq,
            ← List.takeWhile_append_dropWhile isPyDigit r2]
          simp [tokChars, List.append_assoc]
      · cases h
    · cases h

/-- A successful decimal match consumed exactly the token's characters,
and the token is well-formed. -/
theorem matchDec_sound (cs : List Char) (tok : QtyTok) (r : List Char)
    (h : matchDec cs = some (tok, r)) : cs = tokChars tok ++ r ∧ tokWF tok := by
  simp only [matchDec] at h
  split at h
  · next c r2 heq =>
    split at h
    · next hc =>
      split at h
      · cases h
      · next hf =>
        subst hc
        have hpair := Option.some.inj h
        rw [Prod.mk.injEq] at hpair
        obtain ⟨htok, hr⟩ := hpair
        subst htok
        subst hr
        refine ⟨?_, all_takeWhile _ _, hf, all_takeWhile _ _⟩
        conv_lhs => rw [← List.takeWhile_append_dropWhile isPyDigit cs, heq,
          ← List.takeWhile_append_dropWhile isPyDigit r2]
        simp [tokChars, List.append_assoc]
    · cases h
  · cases h

/-- A successful bare-integer match consumed exactly the token's
characters, and the token is well-formed. -/
theorem matchInt_sound (cs : List Char) (tok : QtyTok) (r : List Char)
    (h : matchInt cs = some (tok, r)) : cs = tokChars tok ++ r ∧ tokWF tok := by
  simp only [matchInt] at h
  split at h
  · cases h
  · next hn =>
    have hpair := Option.some.inj h
    rw [Prod.mk.injEq] at hpair
    obtain ⟨htok, hr⟩ := hpair
    subst htok
    subst hr
    refine ⟨?_, hn, all_takeWhile _ _⟩
    conv_lhs => rw [← List.takeWhile_append_dropWhile isPyDigit cs]
    simp [tokChars]

/-- Unpacking one alternative-plus-`(.*)$` step. -/
theorem altWithRest_sound (alt : Option (QtyTok × List Char)) (tok : QtyTok) (g2 : List Char)
    (h : altWithRest alt = some (tok, g2)) :
    ∃ r, alt = some (tok, r) ∧ restCapture r = some g2 := by
  cases alt with
  | none => cases h
  | some p =>
    obtain ⟨t, r⟩ := p
    simp only [altWithRest] at h
    cases hr : restCapture r with
    | none => rw [hr] at h; cases h
    | some g =>
      rw [hr] at h
      have hpair := Option.some.inj h
      rw [Prod.mk.injEq] at hpair
      obtain ⟨htok, hg⟩ := hpair
      subst htok
      subst hg
      exact ⟨r, rfl, hr⟩

/-- A successful `re.match` of the quantity pattern decomposes the input
as leading whitespace, the matched token, and a suffix accepted by
`(.*)$`. -/
theorem pyMatch_sound (cs : List Char) (tok : QtyTok) (g2 : List Char)
    (h : pyMatch cs = some (tok, g2)) :
    ∃ sp tail, cs = sp ++ tokChars tok ++ tail ∧ sp.all isPySpace = true ∧ tokWF tok ∧
      restCapture tail = some g2 := by
  have hcs : cs = cs.takeWhile isPySpace ++ cs.dropWhile isPySpace :=
    (List.takeWhile_append_dropWhile _ _).symm
  have finish : ∀ (m : List Char → Option (QtyTok × List Char)),
      (∀ (cs' : List Char) (tok' : QtyTok) (r' : List Char), m cs' = some (tok', r') →
        cs' = tokChars tok' ++ r' ∧ tokWF tok') →
      altWithRest (m (cs.dropWhile isPySpace)) = some (tok, g2) →
      ∃ sp tail, cs = sp ++ tokChars tok ++ tail ∧ sp.all isPySpace = true ∧ tokWF tok ∧
        restCapture tail = some g2 := by
    intro m msound halt
    obtain ⟨r, hm, hrest⟩ := altWithRest_sound _ _ _ halt
    obtain ⟨hdec, hwf⟩ := msound _ _ _ hm
    refine ⟨cs.takeWhile isPySpace, r, ?_, all_takeWhile _ _, hwf, hrest⟩
    conv_lhs => rw [hcs, hdec]
    rw [List.append_assoc]
  simp only [pyMatch] at h
  cases h1 : altWithRest (matchMixed (cs.dropWhile isPySpace)) with
  | some res =>
    rw [h1] at h
    have hres : res = (tok, g2) := Option.some.inj h
    subst hres
    exact finish matchMixed matchMixed_sound h1
  | none =>
    rw [h1] at h
    cases h2 : altWithRest (matchFrac (cs.dropWhile isPySpace)) with
    | some res =>
      rw [h2] at h
      have hres : res = (tok, g2) := Option.some.inj h
      subst hres
      exact finish matchFrac matchFrac_sound h2
    | none =>
      rw [h2] at h
      cases h3 : altWithRest (matchDec (cs.dropWhile isPySpace)) with
      | some res =>
        rw [h3] at h
        have hres : res = (tok, g2) := Option.some.inj h
        subst hres
        exact finish matchDec matchDec_sound h3
      | none =>
        rw [h3] at h
        exact finish matchInt matchInt_sound h

/-- C2: the three example lines parse as the spec displays, and every
successful parse is anchored at the start of the line — optional
whitespace, then exactly one well-formed mixed number / bare fraction /
decimal / bare integer token whose numeric value is the returned quantity,
then the remainder accepted by `(.*)$`, returned unmodified. -/
theorem claim_C2 :
    _parse_quantity_and_rest "1 1/2 cups flour" = (some (3/2 : ℚ), " cups flour") ∧
    _parse_quantity_and_rest "1/4 cup sugar" = (some (1/4 : ℚ), " cup sugar") ∧
    _parse_quantity_and_rest "a pinch of salt" = (none, "a pinch of salt") ∧
    (∀ (text : String) (q : ℚ) (rest : String),
      _parse_quantity_and_rest text = (some q, rest) →
      ∃ sp tok tail, text.data = sp ++ tokChars tok ++ tail ∧ sp.all isPySpace = true ∧
        tokWF tok ∧ tokValue tok = some q ∧ restCapture tail = some rest.data) := by
  refine ⟨?_, ?_, rfl, ?_⟩
  · rw [show _parse_quantity_and_rest "1 1/2 cups flour" =
        (some ((digitsToNat ['1'] : ℚ) + (digitsToNat ['1'] : ℚ) / (digitsToNat ['2'] : ℚ)),
          " cups flour") from rfl,
      show ((digitsToNat ['1'] : ℚ) + (digitsToNat ['1'] : ℚ) / (digitsToNat ['2'] : ℚ)) =
        3/2 by norm_num [show digitsToNat ['1'] = 1 from rfl, show digitsToNat ['2'] = 2 from rfl]]
  · rw [show _parse_quantity_and_rest "1/4 cup sugar" =
        (some ((digitsToNat ['1'] : ℚ) / (digitsToNat ['4'] : ℚ)), " cup sugar") from rfl,
      show ((digitsToNat ['1'] : ℚ) / (digitsToNat ['4'] : ℚ)) = 1/4 by
        norm_num [show digitsToNat ['1'] = 1 from rfl, show digitsToNat ['4'] = 4 from rfl]]
  · intro text q rest h
    cases hm : pyMatch text.data with
    | none =>
      rw [show _parse_quantity_and_rest text = (none, text) from by
        simp only [_parse_quantity_and_rest, hm]] at h
      cases congrArg Prod.fst h
    | some res =>
      obtain ⟨tok, g2⟩ := res
      cases hv : tokValue tok with
      | none =>
        rw [show _parse_quantity_and_rest text = (none, text) from by
          simp only [_parse_quantity_and_rest, hm, hv]] at h
        cases congrArg Prod.fst h
      | some qv =>
        rw [show _parse_quantity_and_rest text = (some qv, String.mk g2) from by
          simp only [_parse_quantity_and_rest, hm, hv]] at h
        have hq : qv = q := Option.some.inj (congrArg Prod.fst h)
        have hrest : String.mk g2 = rest := congrArg Prod.snd h
        subst hq
        obtain ⟨sp, tail, hdec, hsp, hwf, hcap⟩ := pyMatch_sound text.data tok g2 hm
        refine ⟨sp, tok, tail, hdec, hsp, hwf, hv, ?_⟩
        rw [← hrest]
        exact hcap

/-- Witness for C2's quantified part at `"2 cups"`. -/
theorem claim_C2_witness :
    _parse_quantity_and_rest "2 cups" = (some (digitsToNat ['2'] : ℚ), " cups") ∧
    ∃ sp tok tail, "2 cups".data = sp ++ tokChars tok ++ tail ∧ sp.all isPySpace = true ∧
      tokWF tok ∧ tokValue tok = some ((digitsToNat ['2'] : ℚ)) ∧
      restCapture tail = some " cups".data :=
  ⟨rfl, claim_C2.2.2.2 "2 cups" _ " cups" rfl⟩

end RecipeProject
